import Mathlib

/-!
Verification of the ToDo CRUD service (`main.py`) and its demo variant
(`main0.py`).

The service keeps a single SQLite table
`todos(todo_id INTEGER PRIMARY KEY AUTOINCREMENT, content TEXT NOT NULL,
completed BOOLEAN NOT NULL DEFAULT 0)` and exposes list / get / create /
update / delete handlers.  We embed the store as a list of rows together
with the AUTOINCREMENT sequence counter (SQLite's `sqlite_sequence` value:
the largest id ever assigned, so a fresh insert receives `seq + 1` and ids
are never reused).  Each handler is a pure function from the store (and the
request data) to a pair of an HTTP-level response and the resulting store;
handlers that run no mutating SQL return the store unchanged.

`content` is a required `str` in the pydantic `TodoCreate` model and the
column is declared `NOT NULL`, so content is embedded as a total `String`:
non-nullness holds by typing.
-/

/-- Row / response model `Todo` from `main.py`. -/
structure Todo where
  todo_id : Nat
  content : String
  completed : Bool
deriving DecidableEq, Repr

/-- Request model `TodoCreate`: `content: str`, `completed: bool = False`. -/
structure TodoCreate where
  content : String
  completed : Bool := false
deriving DecidableEq, Repr

/-- Request model `TodoUpdate`: both fields optional, defaulting to `None`. -/
structure TodoUpdate where
  content : Option String := none
  completed : Option Bool := none
deriving DecidableEq, Repr

/-- The data carried by a raised `HTTPException`. -/
structure HTTPException where
  status_code : Nat
  detail : String
deriving DecidableEq, Repr

/-- HTTP-level outcome of a handler: a success status with a body, or a
raised `HTTPException`. -/
inductive Resp (α : Type) where
  | ok (status : Nat) (body : α)
  | error (e : HTTPException)
deriving DecidableEq, Repr

/-- The persistent store: the rows of the `todos` table in insertion order,
together with the AUTOINCREMENT sequence (largest id ever assigned). -/
structure DB where
  rows : List Todo
  seq : Nat
deriving DecidableEq, Repr

/-- The store right after `init_db` on a fresh database file. -/
def emptyDB : DB := ⟨[], 0⟩

/-- `SELECT ... FROM todos WHERE todo_id = ?` followed by `fetchone`:
the first row with the given id, if any. -/
def findTodo : List Todo → Nat → Option Todo
  | [], _ => none
  | r :: rs, i => if r.todo_id = i then some r else findTodo rs i

/-- `UPDATE todos SET content = ?, completed = ? WHERE todo_id = ?`:
every row matching the id is replaced by the merged row `v`. -/
def updateRows : List Todo → Nat → Todo → List Todo
  | [], _, _ => []
  | r :: rs, i, v => (if r.todo_id = i then v else r) :: updateRows rs i v

/-- `DELETE FROM todos WHERE todo_id = ?`: every row matching the id is
removed. -/
def removeTodo : List Todo → Nat → List Todo
  | [], _ => []
  | r :: rs, i => if r.todo_id = i then removeTodo rs i else r :: removeTodo rs i

/-- The 404 detail string `f"Todo with id {todo_id} not found"`. -/
def notFoundDetail (todo_id : Nat) : String :=
  "Todo with id " ++ toString todo_id ++ " not found"

/-- Handler `get_all_todos` (`GET /todos`): returns every row; runs no
mutating SQL. -/
def get_all_todos (db : DB) : Resp (List Todo) × DB :=
  (.ok 200 db.rows, db)

/-- Handler `get_todo` (`GET /todos/{todo_id}`): the matching row with 200,
or a 404 `HTTPException`; runs no mutating SQL. -/
def get_todo (db : DB) (todo_id : Nat) : Resp Todo × DB :=
  match findTodo db.rows todo_id with
  | some row => (.ok 200 row, db)
  | none => (.error ⟨404, notFoundDetail todo_id⟩, db)

/-- Handler `create_todo` (`POST /todos`, `status_code=201`): inserts the
new row, whose id is `cursor.lastrowid = seq + 1`, and echoes it back. -/
def create_todo (db : DB) (todo : TodoCreate) : Resp Todo × DB :=
  let todo_id := db.seq + 1
  let newTodo : Todo := ⟨todo_id, todo.content, todo.completed⟩
  (.ok 201 newTodo, ⟨db.rows ++ [newTodo], todo_id⟩)

/-- Handler `update_todo` (`PUT /todos/{todo_id}`): 404 if the id is absent;
otherwise each field provided in the payload replaces the stored value and
each omitted field keeps it, and the merged row is written back. -/
def update_todo (db : DB) (todo_id : Nat) (todo_update : TodoUpdate) : Resp Todo × DB :=
  match findTodo db.rows todo_id with
  | none => (.error ⟨404, notFoundDetail todo_id⟩, db)
  | some row =>
      let content := todo_update.content.getD row.content
      let completed := todo_update.completed.getD row.completed
      let updated : Todo := ⟨todo_id, content, completed⟩
      (.ok 200 updated, ⟨updateRows db.rows todo_id updated, db.seq⟩)

/-- Handler `delete_todo` (`DELETE /todos/{todo_id}`, `status_code=204`):
404 if the id is absent; otherwise the row is deleted and the body is empty
(the handler returns `None`). -/
def delete_todo (db : DB) (todo_id : Nat) : Resp Unit × DB :=
  match findTodo db.rows todo_id with
  | none => (.error ⟨404, notFoundDetail todo_id⟩, db)
  | some _ => (.ok 204 (), ⟨removeTodo db.rows todo_id, db.seq⟩)

/-- A mutating request against the store. -/
inductive Op where
  | create (todo : TodoCreate)
  | update (todo_id : Nat) (todo_update : TodoUpdate)
  | delete (todo_id : Nat)
deriving DecidableEq, Repr

/-- The store resulting from one request (failed requests leave it as is). -/
def applyOp (db : DB) : Op → DB
  | .create t => (create_todo db t).2
  | .update i u => (update_todo db i u).2
  | .delete i => (delete_todo db i).2

/-- The store reached from a fresh database by a sequence of requests. -/
def runOps (ops : List Op) : DB := ops.foldl applyOp emptyDB

/-- The ids handed out by the `create` requests of a run, in request order,
read off the handlers' response bodies. -/
def assignedIds : DB → List Op → List Nat
  | _, [] => []
  | db, .create t :: ops =>
      (match (create_todo db t).1 with
       | .ok _ b => [b.todo_id]
       | .error _ => []) ++ assignedIds (applyOp db (.create t)) ops
  | db, .update i u :: ops => assignedIds (applyOp db (.update i u)) ops
  | db, .delete i :: ops => assignedIds (applyOp db (.delete i)) ops

/-- Creating a batch of todos, left to right. -/
def createAll (db : DB) (tcs : List TodoCreate) : DB :=
  tcs.foldl (fun d tc => (create_todo d tc).2) db

/-- The rows of the store carrying a given id. -/
def rowsWithId (db : DB) (j : Nat) : List Todo :=
  db.rows.filter (fun r => decide (r.todo_id = j))

/-- Demo variant (`main0.py`): the `Item` pydantic model.  `price` is a
`float` the endpoints only store and echo, never compute with, so it is
embedded with the exact carrier `Rat`. -/
structure Item where
  name : String
  price : Rat
  in_stock : Bool := true
deriving DecidableEq, Repr

/-- Demo handler `create_item` (`POST /items`): appends the validated item
to the in-process list `fake_db` and returns a payload echoing it. -/
def create_item (fake_db : List Item) (item : Item) : (String × Item) × List Item :=
  (("Item created successfully", item), fake_db ++ [item])

/-- Demo handler `read_items` (`GET /items`): returns the whole list. -/
def read_items (fake_db : List Item) : List Item := fake_db

/-- Creating a batch of items, left to right. -/
def createItems (fake_db : List Item) (items : List Item) : List Item :=
  items.foldl (fun d it => (create_item d it).2) fake_db

/-! ### Helper lemmas about the SQL-level list operations -/

theorem findTodo_eq_none (rows : List Todo) (i : Nat)
    (h : ∀ r ∈ rows, r.todo_id ≠ i) : findTodo rows i = none := by
  induction rows with
  | nil => rfl
  | cons r rs ih =>
      have hr : r.todo_id ≠ i := h r (List.mem_cons_self r rs)
      simp only [findTodo, if_neg hr]
      exact ih fun x hx => h x (List.mem_cons_of_mem r hx)

theorem findTodo_mem (rows : List Todo) (i : Nat) (r : Todo)
    (h : findTodo rows i = some r) : r ∈ rows ∧ r.todo_id = i := by
  induction rows with
  | nil => simp [findTodo] at h
  | cons x xs ih =>
      by_cases hx : x.todo_id = i
      · simp only [findTodo, if_pos hx] at h
        cases h
        exact ⟨List.mem_cons_self _ _, hx⟩
      · simp only [findTodo, if_neg hx] at h
        obtain ⟨hmem, hid⟩ := ih h
        exact ⟨List.mem_cons_of_mem x hmem, hid⟩

theorem findTodo_append (rows l : List Todo) (i : Nat)
    (h : ∀ r ∈ rows, r.todo_id ≠ i) :
    findTodo (rows ++ l) i = findTodo l i := by
  induction rows with
  | nil => rfl
  | cons r rs ih =>
      have hr : r.todo_id ≠ i := h r (List.mem_cons_self r rs)
      simp only [List.cons_append, findTodo, if_neg hr]
      exact ih fun x hx => h x (List.mem_cons_of_mem r hx)

theorem findTodo_updateRows (rows : List Todo) (i : Nat) (v : Todo)
    (hv : v.todo_id = i) :
    findTodo (updateRows rows i v) i = (findTodo rows i).map (fun _ => v) := by
  induction rows with
  | nil => rfl
  | cons r rs ih =>
      by_cases hr : r.todo_id = i
      · simp [updateRows, findTodo, if_pos hr, hv]
      · simp [updateRows, findTodo, if_neg hr, ih]

theorem mem_updateRows (rows : List Todo) (i : Nat) (v : Todo) (x : Todo)
    (h : x ∈ updateRows rows i v) : x = v ∨ x ∈ rows := by
  induction rows with
  | nil => simp [updateRows] at h
  | cons r rs ih =>
      simp only [updateRows, List.mem_cons] at h
      rcases h with h | h
      · by_cases hr : r.todo_id = i
        · rw [if_pos hr] at h
          exact Or.inl h
        · rw [if_neg hr] at h
          exact Or.inr (h ▸ List.mem_cons_self r rs)
      · rcases ih h with h | h
        · exact Or.inl h
        · exact Or.inr (List.mem_cons_of_mem r h)

theorem updateRows_map_id (rows : List Todo) (i : Nat) (v : Todo)
    (hv : v.todo_id = i) :
    (updateRows rows i v).map Todo.todo_id = rows.map Todo.todo_id := by
  induction rows with
  | nil => rfl
  | cons r rs ih =>
      by_cases hr : r.todo_id = i
      · simp [updateRows, if_pos hr, ih, hv, hr]
      · simp [updateRows, if_neg hr, ih]

theorem updateRows_of_absent (rows : List Todo) (i : Nat) (v : Todo)
    (h : ∀ r ∈ rows, r.todo_id ≠ i) : updateRows rows i v = rows := by
  induction rows with
  | nil => rfl
  | cons r rs ih =>
      have hr : r.todo_id ≠ i := h r (List.mem_cons_self r rs)
      simp only [updateRows, if_neg hr]
      rw [ih fun x hx => h x (List.mem_cons_of_mem r hx)]

theorem removeTodo_sublist (rows : List Todo) (i : Nat) :
    (removeTodo rows i).Sublist rows := by
  induction rows with
  | nil => simp [removeTodo]
  | cons r rs ih =>
      by_cases hr : r.todo_id = i
      · simp only [removeTodo, if_pos hr]
        exact ih.cons r
      · simp only [removeTodo, if_neg hr]
        exact ih.cons₂ r

theorem mem_removeTodo_ne (rows : List Todo) (i : Nat) (x : Todo)
    (h : x ∈ removeTodo rows i) : x.todo_id ≠ i := by
  induction rows with
  | nil => simp [removeTodo] at h
  | cons r rs ih =>
      by_cases hr : r.todo_id = i
      · rw [removeTodo, if_pos hr] at h
        exact ih h
      · rw [removeTodo, if_neg hr] at h
        rcases List.mem_cons.mp h with h | h
        · exact h ▸ hr
        · exact ih h

/-- A create payload that supplies only `content`, leaving `completed`
unspecified so that the `TodoCreate` model's field default fills it in. -/
def todoCreateOnlyContent (c : String) : TodoCreate := { content := c }

/-! ### Sample stores used by the witnesses -/

/-- A store holding one todo, id 1. -/
def dbA : DB := ⟨[⟨1, "Buy milk", false⟩], 1⟩

/-- A store holding two todos, ids 1 and 2. -/
def dbB : DB := ⟨[⟨1, "Buy milk", false⟩, ⟨2, "Walk dog", true⟩], 2⟩

/-! ### The claims -/

/-- Claim C1: on an existing todo id, `update_todo` merges the payload with
the stored row: a supplied field replaces the stored value and an omitted
(`none`) field keeps it (`Option.getD`), both in the returned todo and in
the row stored afterwards.  In particular a payload of only
`completed = true` leaves `content` unchanged, and the two fields are
merged independently. -/
theorem update_merges_fields (db : DB) (i : Nat) (u : TodoUpdate) (r : Todo)
    (h : (get_todo db i).1 = .ok 200 r) :
    ∃ db2 : DB,
      update_todo db i u =
        (.ok 200 ⟨i, u.content.getD r.content, u.completed.getD r.completed⟩, db2) ∧
      (get_todo db2 i).1 =
        .ok 200 ⟨i, u.content.getD r.content, u.completed.getD r.completed⟩ := by
  rcases hf : findTodo db.rows i with _ | row
  · simp [get_todo, hf] at h
  · simp only [get_todo, hf] at h
    have hrow : row = r := by
      cases h
      rfl
    subst hrow
    refine ⟨⟨updateRows db.rows i
        ⟨i, u.content.getD row.content, u.completed.getD row.completed⟩, db.seq⟩, ?_, ?_⟩
    · simp [update_todo, hf]
    · have hfu := findTodo_updateRows db.rows i
        ⟨i, u.content.getD row.content, u.completed.getD row.completed⟩ rfl
      simp [get_todo, hfu, hf]

/-- Witness for C1: updating todo 1 of `dbA` with only `completed = true`
keeps the content `"Buy milk"` and sets the flag. -/
theorem update_merges_fields_witness :
    (get_todo dbA 1).1 = .ok 200 ⟨1, "Buy milk", false⟩ ∧
    ∃ db2 : DB,
      update_todo dbA 1 ⟨none, some true⟩ = (.ok 200 ⟨1, "Buy milk", true⟩, db2) ∧
      (get_todo db2 1).1 = .ok 200 ⟨1, "Buy milk", true⟩ :=
  ⟨by decide, update_merges_fields dbA 1 ⟨none, some true⟩ ⟨1, "Buy milk", false⟩ (by decide)⟩

/-- Claim C2: `create_todo` returns status 201 and a todo whose content is
the request's content, whose completed flag is the request's flag (the
`TodoCreate` model defaults it to `false` when omitted), and whose id is
positive; a subsequent `get_todo` with that id returns the identical
record.  The hypothesis — every stored id is at most the sequence counter —
holds in every reachable store (see the C7 theorem). -/
theorem create_then_get (db : DB) (tc : TodoCreate)
    (h : ∀ r ∈ db.rows, r.todo_id ≤ db.seq) :
    ∃ (t : Todo) (db2 : DB),
      create_todo db tc = (.ok 201 t, db2) ∧
      t.content = tc.content ∧ t.completed = tc.completed ∧ 0 < t.todo_id ∧
      (get_todo db2 t.todo_id).1 = .ok 200 t ∧
      todoCreateOnlyContent tc.content = ⟨tc.content, false⟩ := by
  have hnone : ∀ r ∈ db.rows, r.todo_id ≠ db.seq + 1 := by
    intro r hr
    have := h r hr
    omega
  have hget : (get_todo ⟨db.rows ++ [⟨db.seq + 1, tc.content, tc.completed⟩], db.seq + 1⟩
      (db.seq + 1)).1 = .ok 200 ⟨db.seq + 1, tc.content, tc.completed⟩ := by
    simp [get_todo, findTodo_append db.rows _ _ hnone, findTodo]
  exact ⟨⟨db.seq + 1, tc.content, tc.completed⟩, (create_todo db tc).2,
    rfl, rfl, rfl, Nat.succ_pos _, hget, rfl⟩

/-- Witness for C2: creating `"Buy milk"` (flag omitted, hence `false`) in
the fresh store yields id 1 and `get` returns the same record. -/
theorem create_then_get_witness :
    (∀ r ∈ emptyDB.rows, r.todo_id ≤ emptyDB.seq) ∧
    ∃ (t : Todo) (db2 : DB),
      create_todo emptyDB (todoCreateOnlyContent "Buy milk") = (.ok 201 t, db2) ∧
      t.content = "Buy milk" ∧ t.completed = false ∧ 0 < t.todo_id ∧
      (get_todo db2 t.todo_id).1 = .ok 200 t ∧
      todoCreateOnlyContent "Buy milk" = ⟨"Buy milk", false⟩ :=
  ⟨by decide, create_then_get emptyDB (todoCreateOnlyContent "Buy milk") (by decide)⟩

/-- Claim C3: `get_todo` on an id absent from the store fails with status
404 and detail exactly `"Todo with id " ++ toString i ++ " not found"`, and
returns the store unchanged. -/
theorem get_absent_404 (db : DB) (i : Nat)
    (h : ∀ r ∈ db.rows, r.todo_id ≠ i) :
    get_todo db i = (.error ⟨404, "Todo with id " ++ toString i ++ " not found"⟩, db) := by
  simp [get_todo, findTodo_eq_none db.rows i h, notFoundDetail]

/-- Witness for C3: `get` of id 9999 in the empty store yields 404 with
detail `"Todo with id 9999 not found"`. -/
theorem get_absent_404_witness :
    (∀ r ∈ emptyDB.rows, r.todo_id ≠ 9999) ∧
    get_todo emptyDB 9999 = (.error ⟨404, "Todo with id 9999 not found"⟩, emptyDB) :=
  ⟨by decide, get_absent_404 emptyDB 9999 (by decide)⟩

/-- Claim C4: `update_todo` on an id absent from the store fails with 404
and returns the store unchanged, so no row is created. -/
theorem update_absent_404 (db : DB) (i : Nat) (u : TodoUpdate)
    (h : ∀ r ∈ db.rows, r.todo_id ≠ i) :
    update_todo db i u = (.error ⟨404, notFoundDetail i⟩, db) := by
  simp [update_todo, findTodo_eq_none db.rows i h]

/-- Witness for C4: updating the absent id 5 in the empty store yields 404
and leaves the store empty. -/
theorem update_absent_404_witness :
    (∀ r ∈ emptyDB.rows, r.todo_id ≠ 5) ∧
    update_todo emptyDB 5 ⟨some "x", none⟩ = (.error ⟨404, notFoundDetail 5⟩, emptyDB) :=
  ⟨by decide, update_absent_404 emptyDB 5 ⟨some "x", none⟩ (by decide)⟩

theorem findTodo_isSome (rows : List Todo) (i : Nat) (r : Todo)
    (hm : r ∈ rows) (hid : r.todo_id = i) : ∃ x, findTodo rows i = some x := by
  induction rows with
  | nil => simp at hm
  | cons x xs ih =>
      by_cases hx : x.todo_id = i
      · exact ⟨x, by simp [findTodo, if_pos hx]⟩
      · rcases List.mem_cons.mp hm with h | h
        · exact absurd (h ▸ hid) hx
        · obtain ⟨y, hy⟩ := ih h
          exact ⟨y, by simp [findTodo, if_neg hx, hy]⟩

/-- Claim C5: `delete_todo` on a present id succeeds with status 204 and an
empty body, and removes the row: a following `get_todo` on the same id
yields 404, and a second `delete_todo` on it also yields 404. -/
theorem delete_present (db : DB) (i : Nat) (r : Todo)
    (hm : r ∈ db.rows) (hid : r.todo_id = i) :
    ∃ db2 : DB,
      delete_todo db i = (.ok 204 (), db2) ∧
      (get_todo db2 i).1 = .error ⟨404, notFoundDetail i⟩ ∧
      (delete_todo db2 i).1 = .error ⟨404, notFoundDetail i⟩ := by
  obtain ⟨x, hx⟩ := findTodo_isSome db.rows i r hm hid
  have hnone : findTodo (removeTodo db.rows i) i = none :=
    findTodo_eq_none _ i fun y hy => mem_removeTodo_ne db.rows i y hy
  refine ⟨⟨removeTodo db.rows i, db.seq⟩, ?_, ?_, ?_⟩
  · simp [delete_todo, hx]
  · simp [get_todo, hnone]
  · simp [delete_todo, hnone]

/-- Witness for C5: deleting the present id 1 of `dbA` returns 204 and a
following `get` and a second `delete` on id 1 both return 404. -/
theorem delete_present_witness :
    (⟨1, "Buy milk", false⟩ : Todo) ∈ dbA.rows ∧
    ∃ db2 : DB,
      delete_todo dbA 1 = (.ok 204 (), db2) ∧
      (get_todo db2 1).1 = .error ⟨404, notFoundDetail 1⟩ ∧
      (delete_todo db2 1).1 = .error ⟨404, notFoundDetail 1⟩ :=
  ⟨by decide, delete_present dbA 1 ⟨1, "Buy milk", false⟩ (by decide) rfl⟩

theorem createAll_cons (db : DB) (tc : TodoCreate) (tcs : List TodoCreate) :
    createAll db (tc :: tcs) = createAll (create_todo db tc).2 tcs := rfl

theorem createAll_payloads (db : DB) (tcs : List TodoCreate) :
    (createAll db tcs).rows.map (fun r => (r.content, r.completed)) =
      db.rows.map (fun r => (r.content, r.completed)) ++
        tcs.map (fun tc => (tc.content, tc.completed)) := by
  induction tcs generalizing db with
  | nil => simp [createAll]
  | cons tc tcs ih =>
      rw [createAll_cons, ih]
      simp [create_todo]

/-- Claim C6: after creating any batch of todos into the fresh store, the
list handler returns exactly as many entries as were created, and each
entry's content and completed fields equal those of its creation payload
(with `completed` defaulting to `false` where the payload left it out). -/
theorem list_after_creates (tcs : List TodoCreate) :
    ∃ l : List Todo,
      (get_all_todos (createAll emptyDB tcs)).1 = .ok 200 l ∧
      l.length = tcs.length ∧
      l.map (fun r => (r.content, r.completed)) =
        tcs.map (fun tc => (tc.content, tc.completed)) ∧
      ∀ c : String, todoCreateOnlyContent c = ⟨c, false⟩ := by
  refine ⟨(createAll emptyDB tcs).rows, rfl, ?_, ?_, fun c => rfl⟩
  · have h := congrArg List.length (createAll_payloads emptyDB tcs)
    simpa [emptyDB] using h
  · simpa [emptyDB] using createAll_payloads emptyDB tcs

/-! ### The reachable-store invariant -/

/-- The store invariant: ids are pairwise distinct, and every stored id is
positive and bounded by the AUTOINCREMENT sequence. -/
def ValidDB (db : DB) : Prop :=
  (db.rows.map Todo.todo_id).Nodup ∧
  ∀ r ∈ db.rows, 1 ≤ r.todo_id ∧ r.todo_id ≤ db.seq

theorem seq_le_applyOp (db : DB) (op : Op) : db.seq ≤ (applyOp db op).seq := by
  cases op with
  | create t =>
      show db.seq ≤ db.seq + 1
      omega
  | update i u =>
      simp only [applyOp, update_todo]
      rcases hf : findTodo db.rows i with _ | row <;> simp [hf]
  | delete i =>
      simp only [applyOp, delete_todo]
      rcases hf : findTodo db.rows i with _ | row <;> simp [hf]

theorem validDB_applyOp (db : DB) (op : Op) (h : ValidDB db) :
    ValidDB (applyOp db op) := by
  obtain ⟨hnd, hb⟩ := h
  cases op with
  | create t =>
      constructor
      · show ((db.rows ++ [(⟨db.seq + 1, t.content, t.completed⟩ : Todo)]).map
          Todo.todo_id).Nodup
        rw [List.map_append, List.nodup_append]
        refine ⟨hnd, List.nodup_singleton _, ?_⟩
        intro a ha ha2
        obtain ⟨r, hr, hra⟩ := List.mem_map.mp ha
        have hle := (hb r hr).2
        have ha3 : a = db.seq + 1 := by simpa using ha2
        omega
      · intro r hr
        show 1 ≤ r.todo_id ∧ r.todo_id ≤ db.seq + 1
        rcases List.mem_append.mp hr with hr | hr
        · have := hb r hr
          omega
        · simp only [List.mem_singleton] at hr
          subst hr
          exact ⟨Nat.succ_le_succ (Nat.zero_le _), Nat.le_refl _⟩
  | update i u =>
      simp only [applyOp, update_todo]
      rcases hf : findTodo db.rows i with _ | row
      · exact ⟨hnd, hb⟩
      · obtain ⟨hrow, hrowid⟩ := findTodo_mem db.rows i row hf
        constructor
        · have hm2 := updateRows_map_id db.rows i
            ⟨i, u.content.getD row.content, u.completed.getD row.completed⟩ rfl
          simpa [hm2] using hnd
        · intro x hx
          rcases mem_updateRows db.rows i _ x hx with hx2 | hx2
          · subst hx2
            have hbr := hb row hrow
            show 1 ≤ i ∧ i ≤ db.seq
            omega
          · exact hb x hx2
  | delete i =>
      simp only [applyOp, delete_todo]
      rcases hf : findTodo db.rows i with _ | row
      · exact ⟨hnd, hb⟩
      · constructor
        · exact hnd.sublist ((removeTodo_sublist db.rows i).map Todo.todo_id)
        · intro x hx
          exact hb x ((removeTodo_sublist db.rows i).subset hx)

theorem validDB_foldl (ops : List Op) (db : DB) (h : ValidDB db) :
    ValidDB (ops.foldl applyOp db) := by
  induction ops generalizing db with
  | nil => exact h
  | cons op ops ih => exact ih (applyOp db op) (validDB_applyOp db op h)

theorem validDB_runOps (ops : List Op) : ValidDB (runOps ops) :=
  validDB_foldl ops emptyDB ⟨List.nodup_nil, by simp [emptyDB]⟩

theorem assignedIds_create (db : DB) (t : TodoCreate) (ops : List Op) :
    assignedIds db (.create t :: ops) =
      (db.seq + 1) :: assignedIds (applyOp db (.create t)) ops := rfl

theorem assignedIds_update_eq (db : DB) (i : Nat) (u : TodoUpdate) (ops : List Op) :
    assignedIds db (.update i u :: ops) = assignedIds (applyOp db (.update i u)) ops := rfl

theorem assignedIds_delete_eq (db : DB) (i : Nat) (ops : List Op) :
    assignedIds db (.delete i :: ops) = assignedIds (applyOp db (.delete i)) ops := rfl

theorem assignedIds_gt (db : DB) (ops : List Op) :
    ∀ x ∈ assignedIds db ops, db.seq < x := by
  induction ops generalizing db with
  | nil => simp [assignedIds]
  | cons op ops ih =>
      cases op with
      | create t =>
          intro x hx
          rw [assignedIds_create] at hx
          rcases List.mem_cons.mp hx with h | h
          · omega
          · have := ih (applyOp db (.create t)) x h
            have hseq : (applyOp db (.create t)).seq = db.seq + 1 := rfl
            omega
      | update i u =>
          intro x hx
          rw [assignedIds_update_eq] at hx
          have := ih (applyOp db (.update i u)) x hx
          have hle := seq_le_applyOp db (.update i u)
          omega
      | delete i =>
          intro x hx
          rw [assignedIds_delete_eq] at hx
          have := ih (applyOp db (.delete i)) x hx
          have hle := seq_le_applyOp db (.delete i)
          omega

theorem assignedIds_sorted (db : DB) (ops : List Op) :
    (assignedIds db ops).Pairwise (· < ·) := by
  induction ops generalizing db with
  | nil => simp [assignedIds]
  | cons op ops ih =>
      cases op with
      | create t =>
          rw [assignedIds_create]
          refine List.Pairwise.cons ?_ (ih _)
          intro x hx
          have hgt := assignedIds_gt (applyOp db (.create t)) ops x hx
          have hseq : (applyOp db (.create t)).seq = db.seq + 1 := rfl
          omega
      | update i u =>
          rw [assignedIds_update_eq]
          exact ih _
      | delete i =>
          rw [assignedIds_delete_eq]
          exact ih _

/-- Claim C7: in every store reachable from the fresh database by any
sequence of create, update and delete requests, the stored ids are pairwise
distinct and each is positive and at most the AUTOINCREMENT sequence; and
the ids handed out by the create requests of the run are strictly
increasing, so each create's id exceeds every id assigned before it and no
id is ever reused, even after deletion.  (Content is non-null by typing:
every stored row carries a total `String`.) -/
theorem reachable_store_invariant (ops : List Op) :
    ((runOps ops).rows.map Todo.todo_id).Nodup ∧
    (∀ r ∈ (runOps ops).rows, 1 ≤ r.todo_id ∧ r.todo_id ≤ (runOps ops).seq) ∧
    (assignedIds emptyDB ops).Pairwise (· < ·) := by
  obtain ⟨hnd, hb⟩ := validDB_runOps ops
  exact ⟨hnd, hb, assignedIds_sorted emptyDB ops⟩

theorem updateRows_self (rows : List Todo) (i : Nat) (r : Todo)
    (hnd : (rows.map Todo.todo_id).Nodup) (hf : findTodo rows i = some r) :
    updateRows rows i r = rows := by
  induction rows with
  | nil => rfl
  | cons x xs ih =>
      by_cases hx : x.todo_id = i
      · rw [findTodo, if_pos hx] at hf
        cases hf
        have hnotin : r.todo_id ∉ xs.map Todo.todo_id := by
          have h2 : (r.todo_id :: xs.map Todo.todo_id).Nodup := by simpa using hnd
          exact (List.nodup_cons.mp h2).1
        have habs : ∀ y ∈ xs, y.todo_id ≠ i := by
          intro y hy hyi
          apply hnotin
          rw [hx, ← hyi]
          exact List.mem_map_of_mem Todo.todo_id hy
        simp only [updateRows, if_pos hx]
        rw [updateRows_of_absent xs i r habs]
      · rw [findTodo, if_neg hx] at hf
        have hnd2 : (xs.map Todo.todo_id).Nodup := by
          have h2 : (x.todo_id :: xs.map Todo.todo_id).Nodup := by simpa using hnd
          exact (List.nodup_cons.mp h2).2
        simp only [updateRows, if_neg hx]
        rw [ih hnd2 hf]

/-- Claim C8: on a store with pairwise distinct ids (true of every
reachable store, see the C7 theorem), updating a present id with the empty
payload — both fields omitted — is an identity: it returns the currently
stored todo with 200 and leaves the store exactly as it was. -/
theorem update_empty_payload_id (db : DB) (i : Nat) (r : Todo)
    (hnd : (db.rows.map Todo.todo_id).Nodup)
    (h : (get_todo db i).1 = .ok 200 r) :
    update_todo db i ⟨none, none⟩ = (.ok 200 r, db) := by
  rcases hf : findTodo db.rows i with _ | row
  · simp [get_todo, hf] at h
  · simp only [get_todo, hf] at h
    have hrow : row = r := by
      cases h
      rfl
    subst hrow
    obtain ⟨hm, hid⟩ := findTodo_mem db.rows i row hf
    have hupd : (⟨i, row.content, row.completed⟩ : Todo) = row := by
      rw [← hid]
    have hur := updateRows_self db.rows i row hnd hf
    simp only [update_todo, hf, Option.getD_none]
    rw [hupd, hur]

/-- Witness for C8: updating todo 1 of `dbA` with the empty payload returns
the stored record and the unchanged store. -/
theorem update_empty_payload_id_witness :
    (dbA.rows.map Todo.todo_id).Nodup ∧
    (get_todo dbA 1).1 = .ok 200 ⟨1, "Buy milk", false⟩ ∧
    update_todo dbA 1 ⟨none, none⟩ = (.ok 200 ⟨1, "Buy milk", false⟩, dbA) :=
  ⟨by decide, by decide,
    update_empty_payload_id dbA 1 ⟨1, "Buy milk", false⟩ (by decide) (by decide)⟩

theorem filter_updateRows (rows : List Todo) (i j : Nat) (v : Todo)
    (hv : v.todo_id = i) (hij : j ≠ i) :
    (updateRows rows i v).filter (fun r => decide (r.todo_id = j)) =
      rows.filter (fun r => decide (r.todo_id = j)) := by
  induction rows with
  | nil => rfl
  | cons x xs ih =>
      by_cases hx : x.todo_id = i
      · have hxj : ¬ (x.todo_id = j) := by
          rw [hx]
          exact fun h2 => hij h2.symm
        have hvj : ¬ (v.todo_id = j) := by
          rw [hv]
          exact fun h2 => hij h2.symm
        simp [updateRows, if_pos hx, List.filter_cons, hxj, hvj, ih]
      · simp [updateRows, if_neg hx, List.filter_cons, ih]

theorem filter_removeTodo (rows : List Todo) (i j : Nat) (hij : j ≠ i) :
    (removeTodo rows i).filter (fun r => decide (r.todo_id = j)) =
      rows.filter (fun r => decide (r.todo_id = j)) := by
  induction rows with
  | nil => rfl
  | cons x xs ih =>
      by_cases hx : x.todo_id = i
      · have hxj : ¬ (x.todo_id = j) := by
          rw [hx]
          exact fun h2 => hij h2.symm
        simp [removeTodo, if_pos hx, List.filter_cons, hxj, ih]
      · simp [removeTodo, if_neg hx, List.filter_cons, ih]

/-- Claim C9: an update or delete targeting id `i` leaves the rows carrying
any other id `j` exactly as they were: only the targeted row is modified or
removed.  (This holds whether or not the request on `i` succeeds; a failed
request leaves the whole store unchanged.) -/
theorem writes_frame_other_ids (db : DB) (i j : Nat) (u : TodoUpdate)
    (hij : j ≠ i) :
    rowsWithId (update_todo db i u).2 j = rowsWithId db j ∧
    rowsWithId (delete_todo db i).2 j = rowsWithId db j := by
  constructor
  · rcases hf : findTodo db.rows i with _ | row
    · simp [update_todo, hf]
    · simp only [update_todo, hf, rowsWithId]
      exact filter_updateRows db.rows i j
        ⟨i, u.content.getD row.content, u.completed.getD row.completed⟩ rfl hij
  · rcases hf : findTodo db.rows i with _ | row
    · simp [delete_todo, hf]
    · simp only [delete_todo, hf, rowsWithId]
      exact filter_removeTodo db.rows i j hij

/-- Witness for C9: in the two-row store `dbB`, updating and deleting id 1
leave the row with id 2 untouched. -/
theorem writes_frame_other_ids_witness :
    (2 : Nat) ≠ 1 ∧
    rowsWithId (update_todo dbB 1 ⟨some "Changed", none⟩).2 2 = rowsWithId dbB 2 ∧
    rowsWithId (delete_todo dbB 1).2 2 = rowsWithId dbB 2 :=
  ⟨by decide, writes_frame_other_ids dbB 1 2 ⟨some "Changed", none⟩ (by decide)⟩

theorem createItems_append (fake_db : List Item) (items : List Item) :
    createItems fake_db items = fake_db ++ items := by
  induction items generalizing fake_db with
  | nil => simp [createItems]
  | cons it its ih =>
      show createItems (fake_db ++ [it]) its = fake_db ++ it :: its
      rw [ih]
      simp

/-- Claim C10: in the demo variant, `create_item` appends the validated
item to the in-process list and returns a payload echoing it, and
`read_items` returns all previously created items in creation order: a
read after any batch of creates returns exactly those items. -/
theorem demo_create_read (prev : List Item) (item : Item) (items : List Item) :
    create_item prev item = (("Item created successfully", item), prev ++ [item]) ∧
    read_items (createItems [] items) = items := by
  refine ⟨rfl, ?_⟩
  show createItems [] items = items
  rw [createItems_append]
  rfl
